import Mathlib

/-!
Shallow embedding of the `aoc2023` repository (Advent of Code 2023 solutions)
and proofs about the claims concerning it.

Modules embedded:
* `aoc_tools/graph.py` (and its duplicate `graph.py`): points, edges,
  shoelace-formula polygon area (`enclosed_area`, both the module-level
  function and the `Polygon` method), Pick-style point counting helpers.
* `aoc_tools/shortest_path.py`: the `Graph.dijkstra` and
  `Graph.floyd_warshall` routines, modelled with explicit fuel for the
  unbounded `while` loop and with Python's insertion-ordered
  `defaultdict` modelled as an association list.
* `aoc_tools/hashable.py`: the `HashList`/`HashDict` hash functions and
  `HashDict.set`, the latter over an explicit object store to capture
  mutation and aliasing.
* `day01/part1.py`, `day15/part1.py`, `day02/part1.py`: the pure parts of
  the day scripts and the sequence of values their `main` functions print.

Python `int` is embedded as `Int` (arbitrary precision in both settings),
`float` results of exact halving as `Rat`, strings as `List Char`, and
raised exceptions as `Except PyErr`.
-/

/-- Exceptions raised by the embedded Python code. -/
inductive PyErr where
  | runtimeError
  | assertionError
  | indexError
  deriving DecidableEq, Repr

namespace AocGeom

/-- Point dataclass from aoc_tools/graph.py: row/column integer coordinates. -/
structure Point where
  row : Int
  col : Int
  deriving DecidableEq, Repr

/-- Edge dataclass from aoc_tools/graph.py: connects two points. -/
structure Edge where
  p1 : Point
  p2 : Point
  deriving DecidableEq, Repr

/-- Edge.determinant: (p1.col * p2.row) - (p1.row * p2.col). -/
def Edge.determinant (e : Edge) : Int :=
  e.p1.col * e.p2.row - e.p1.row * e.p2.col

/-- Determinant of the edge from a to b, unfolded (used in lemmas). -/
def det2 (a b : Point) : Int :=
  a.col * b.row - a.row * b.col

theorem Edge.determinant_mk (a b : Point) : (Edge.mk a b).determinant = det2 a b := rfl

theorem det2_antisymm (a b : Point) : det2 a b = -det2 b a := by
  simp [det2]; ring

/-- get_edges: pairs each point with the next, wrapping the last point back
to the first (start_to_start = polygon + [polygon[0]], consecutive pairs).
On the empty list the Python code raises IndexError; claims only concern
non-empty lists, for which this definition coincides with the source. -/
def get_edges : List Point → List Edge
  | [] => []
  | p :: ps => List.zipWith Edge.mk (p :: ps) (ps ++ [p])

/-- Sum of edge determinants, the matrix_sum of enclosed_area. -/
def detSum (polygon : List Point) : Int :=
  ((get_edges polygon).map Edge.determinant).sum

/-- Sum of det2 over consecutive (non-wrapping) pairs of the list. -/
def pathSum : List Point → Int
  | a :: b :: t => det2 a b + pathSum (b :: t)
  | _ => 0

theorem pathSum_nil : pathSum [] = 0 := rfl

theorem pathSum_single (a : Point) : pathSum [a] = 0 := rfl

theorem pathSum_cons (a b : Point) (t : List Point) :
    pathSum (a :: b :: t) = det2 a b + pathSum (b :: t) := rfl

/-- Determinant term for an optional predecessor (helper for lemma statements). -/
def det2Opt (o : Option Point) (x : Point) : Int :=
  match o with
  | some y => det2 y x
  | none => 0

theorem pathSum_append_single :
    ∀ (l : List Point) (x : Point),
      pathSum (l ++ [x]) = pathSum l + det2Opt l.getLast? x
  | [], _ => by simp [pathSum, det2Opt]
  | [a], x => by simp [pathSum, det2Opt]
  | a :: b :: t, x => by
    have ih := pathSum_append_single (b :: t) x
    have h1 : pathSum ((a :: b :: t) ++ [x]) = det2 a b + pathSum ((b :: t) ++ [x]) := rfl
    rw [h1, ih, pathSum_cons, List.getLast?_cons_cons]
    ring

theorem pathSum_reverse (l : List Point) : pathSum l.reverse = -pathSum l := by
  induction l with
  | nil => simp [pathSum]
  | cons a t ih =>
    rw [List.reverse_cons, pathSum_append_single, ih, List.getLast?_reverse]
    cases t with
    | nil => simp [pathSum, det2Opt]
    | cons b t2 =>
      have hh : (b :: t2).head? = some b := rfl
      rw [hh, pathSum_cons]
      simp only [det2Opt]
      rw [det2_antisymm b a]
      ring

/-- Cyclic determinant sum of l with wrap-around target z. -/
def wrapSum (l : List Point) (z : Point) : Int :=
  (List.zipWith det2 l (l.tail ++ [z])).sum

theorem getLast?_getD_shift (q : Point) (ps : List Point) (p : Point) :
    ((q :: ps).getLast?).getD p = (ps.getLast?).getD q := by
  cases ps with
  | nil => rfl
  | cons c t =>
    rw [List.getLast?_cons_cons]
    obtain ⟨y, hy⟩ := Option.isSome_iff_exists.mp (List.getLast?_isSome.mpr (show c :: t ≠ [] by simp))
    rw [hy]
    rfl

theorem wrapSum_eq (p : Point) (ps : List Point) (z : Point) :
    wrapSum (p :: ps) z = pathSum (p :: ps) + det2 ((ps.getLast?).getD p) z := by
  induction ps generalizing p with
  | nil => simp [wrapSum, pathSum]
  | cons q ps2 ih =>
    have step : wrapSum (p :: q :: ps2) z = det2 p q + wrapSum (q :: ps2) z := by
      simp [wrapSum]
    rw [step, ih q, pathSum_cons, ← getLast?_getD_shift q ps2 p]
    ring

theorem map_determinant_zipWith :
    ∀ (l r : List Point),
      (List.zipWith Edge.mk l r).map Edge.determinant = List.zipWith det2 l r
  | [], _ => by simp
  | _ :: _, [] => by simp
  | a :: l, b :: r => by
    simp only [List.zipWith_cons_cons, List.map_cons, Edge.determinant_mk]
    rw [map_determinant_zipWith l r]

theorem detSum_cons_eq (p : Point) (ps : List Point) :
    detSum (p :: ps) = pathSum (p :: ps) + det2 ((ps.getLast?).getD p) p := by
  have h1 : detSum (p :: ps) = wrapSum (p :: ps) p := by
    unfold detSum wrapSum get_edges
    rw [map_determinant_zipWith]
    rfl
  rw [h1, wrapSum_eq]

/-- Reversing a non-empty polygon negates the shoelace determinant sum. -/
theorem detSum_reverse (l : List Point) (h : l ≠ []) :
    detSum l.reverse = -detSum l := by
  obtain ⟨p, ps, rfl⟩ := List.exists_cons_of_ne_nil h
  obtain ⟨q, qs, hrev⟩ :=
    List.exists_cons_of_ne_nil (show (p :: ps).reverse ≠ [] from by simp)
  have hlastrev : (q :: qs).getLast? = some p := by
    rw [← hrev, List.getLast?_reverse]; rfl
  have hlast : (p :: ps).getLast? = some q := by
    rw [← List.head?_reverse, hrev]; rfl
  have hc1 : ((qs.getLast?).getD q) = p := by
    rw [← getLast?_getD_shift q qs p, hlastrev]; rfl
  have hc2 : ((ps.getLast?).getD p) = q := by
    rw [← getLast?_getD_shift p ps q, hlast]; rfl
  rw [hrev, detSum_cons_eq, hc1]
  have hps : pathSum (q :: qs) = -pathSum (p :: ps) := by
    rw [← hrev, pathSum_reverse]
  rw [hps, detSum_cons_eq, hc2]
  rw [det2_antisymm p q]
  ring

theorem detSum_nil : detSum [] = 0 := rfl

/-- Module-level enclosed_area from aoc_tools/graph.py (and graph.py):
shoelace formula; if the determinant sum is negative the function calls
itself on the reversed point list, otherwise it returns matrix_sum / 2.
Python's float division by 2 of an integer is modelled exactly in Rat. -/
def enclosed_area (polygon : List Point) : Rat :=
  if h : detSum polygon < 0 then enclosed_area polygon.reverse
  else (detSum polygon : Rat) / 2
termination_by (if detSum polygon < 0 then 1 else 0)
decreasing_by
  have hne : polygon ≠ [] := by
    intro he
    rw [he, detSum_nil] at h
    exact absurd h (by norm_num)
  rw [detSum_reverse polygon hne]
  simp [h, not_lt.mpr (le_of_lt (neg_pos.mpr h))]

theorem enclosed_area_of_neg {polygon : List Point} (h : detSum polygon < 0) :
    enclosed_area polygon = enclosed_area polygon.reverse := by
  conv_lhs => unfold enclosed_area
  rw [dif_pos h]

theorem enclosed_area_of_nonneg {polygon : List Point} (h : ¬ detSum polygon < 0) :
    enclosed_area polygon = (detSum polygon : Rat) / 2 := by
  conv_lhs => unfold enclosed_area
  rw [dif_neg h]

theorem enclosed_area_eq_abs (polygon : List Point) :
    enclosed_area polygon = ((|detSum polygon| : Int) : Rat) / 2 := by
  by_cases h : detSum polygon < 0
  · have hne : polygon ≠ [] := by
      intro he
      rw [he, detSum_nil] at h
      exact absurd h (by norm_num)
    have h2 : ¬ detSum polygon.reverse < 0 := by
      rw [detSum_reverse polygon hne]
      omega
    rw [enclosed_area_of_neg h, enclosed_area_of_nonneg h2, detSum_reverse polygon hne,
      abs_of_neg h]
  · rw [enclosed_area_of_nonneg h, abs_of_nonneg (not_lt.mp h)]

/-- Polygon dataclass from aoc_tools/graph.py: a tuple of points. -/
structure Polygon where
  points : List Point
  deriving DecidableEq, Repr

/-- Polygon.from_points classmethod. -/
def Polygon.from_points (pts : List Point) : Polygon := ⟨pts⟩

/-- Polygon.edges: builds start_to_start = points + [points[0]] and pairs
consecutive points, exactly the construction of the module-level get_edges. -/
def Polygon.edges (pg : Polygon) : List Edge := get_edges pg.points

/-- Polygon.reversed: same points in the opposite direction. -/
def Polygon.reversed (pg : Polygon) : Polygon := Polygon.from_points pg.points.reverse

/-- Sum of the edge determinants of a polygon (the local matrix_sum of
Polygon.enclosed_area). -/
def Polygon.matrix_sum (pg : Polygon) : Int :=
  ((pg.edges).map Edge.determinant).sum

theorem Polygon.matrix_sum_eq (pg : Polygon) : pg.matrix_sum = detSum pg.points := rfl

/-- Polygon.enclosed_area method: identical recursion to the module-level
function, but the non-negative branch returns matrix_sum WITHOUT dividing
by 2 (the Python method returns the bare int; cast to Rat for comparison
with the module-level function). -/
def Polygon.enclosed_area (pg : Polygon) : Rat :=
  if h : pg.matrix_sum < 0 then pg.reversed.enclosed_area
  else (pg.matrix_sum : Rat)
termination_by (if pg.matrix_sum < 0 then 1 else 0)
decreasing_by
  rw [Polygon.matrix_sum_eq] at h
  have hne : pg.points ≠ [] := by
    intro he
    rw [he, detSum_nil] at h
    exact absurd h (by norm_num)
  show (if (Polygon.reversed pg).matrix_sum < 0 then 1 else 0) < _
  rw [Polygon.matrix_sum_eq, Polygon.matrix_sum_eq]
  show (if detSum pg.points.reverse < 0 then 1 else 0) < _
  rw [detSum_reverse pg.points hne]
  simp [h, not_lt.mpr (le_of_lt (neg_pos.mpr h))]

theorem Polygon.enclosed_area_method_of_neg {pg : Polygon} (h : pg.matrix_sum < 0) :
    pg.enclosed_area = pg.reversed.enclosed_area := by
  conv_lhs => unfold Polygon.enclosed_area
  rw [dif_pos h]

theorem Polygon.enclosed_area_method_of_nonneg {pg : Polygon} (h : ¬ pg.matrix_sum < 0) :
    pg.enclosed_area = (pg.matrix_sum : Rat) := by
  conv_lhs => unfold Polygon.enclosed_area
  rw [dif_neg h]

theorem Polygon.enclosed_area_method_eq_abs (pg : Polygon) :
    pg.enclosed_area = ((|detSum pg.points| : Int) : Rat) := by
  by_cases h : pg.matrix_sum < 0
  · have hd := h
    rw [Polygon.matrix_sum_eq] at hd
    have hne : pg.points ≠ [] := by
      intro he
      rw [he, detSum_nil] at hd
      exact absurd hd (by norm_num)
    have h2 : ¬ pg.reversed.matrix_sum < 0 := by
      rw [Polygon.matrix_sum_eq]
      show ¬ detSum pg.points.reverse < 0
      rw [detSum_reverse pg.points hne]
      omega
    rw [Polygon.enclosed_area_method_of_neg h, Polygon.enclosed_area_method_of_nonneg h2,
      Polygon.matrix_sum_eq]
    show ((detSum pg.points.reverse : Int) : Rat) = _
    rw [detSum_reverse pg.points hne, abs_of_neg hd]
  · rw [Polygon.enclosed_area_method_of_nonneg h, Polygon.matrix_sum_eq]
    rw [Polygon.matrix_sum_eq] at h
    rw [abs_of_nonneg (not_lt.mp h)]

/-- Edge.integer_points: gcd of the absolute coordinate differences. -/
def Edge.integer_points (e : Edge) : Int :=
  (Int.gcd (e.p1.row - e.p2.row) (e.p1.col - e.p2.col) : Int)

/-- Python int() truncation toward zero on an exact rational. -/
def pyInt (q : Rat) : Int := q.num / (q.den : Int)

/-- Module-level count_enclosed_points: Pick-formula rearrangement
int(area + 1 - boundary_points / 2). -/
def count_enclosed_points (polygon : List Point) : Int :=
  pyInt (enclosed_area polygon + 1 -
    ((((get_edges polygon).map Edge.integer_points).sum : Rat) / 2))

/-- Unit square corner points (0,0), (0,1), (1,1), (1,0). -/
def unitSquare : List Point := [⟨0, 0⟩, ⟨0, 1⟩, ⟨1, 1⟩, ⟨1, 0⟩]

/-- Unit square corner points in the opposite traversal order. -/
def unitSquareRev : List Point := [⟨1, 0⟩, ⟨1, 1⟩, ⟨0, 1⟩, ⟨0, 0⟩]

theorem detSum_unitSquare : detSum unitSquare = 2 := by decide

theorem detSum_unitSquareRev : detSum unitSquareRev = -2 := by decide

theorem ea_unitSquare : enclosed_area unitSquare = 1 := by
  rw [enclosed_area_eq_abs, detSum_unitSquare]
  norm_num

theorem ea_unitSquareRev : enclosed_area unitSquareRev = 1 := by
  rw [enclosed_area_eq_abs, detSum_unitSquareRev]
  norm_num

/-- C2: the module-level enclosed_area applied to the four corner points of
the unit square, (0,0), (0,1), (1,1), (1,0), returns 1 in either traversal
order. -/
theorem enclosed_area_unit_square_both_orders :
    enclosed_area unitSquare = 1 ∧ enclosed_area unitSquareRev = 1 :=
  ⟨ea_unitSquare, ea_unitSquareRev⟩

/-- C3 counterexample: on the unit square the Polygon.enclosed_area method
returns 2 while the module-level enclosed_area returns 1, so the two do NOT
agree. -/
theorem polygon_method_area_ne_module_area :
    (Polygon.from_points unitSquare).enclosed_area ≠ enclosed_area unitSquare := by
  rw [Polygon.enclosed_area_method_eq_abs, ea_unitSquare]
  show ((|detSum unitSquare| : Int) : Rat) ≠ 1
  rw [detSum_unitSquare]
  norm_num

/-- C3 amended: for every non-empty list of points, the Polygon method
returns exactly TWICE the module-level enclosed_area: the method skips the
final division by 2 of the shoelace formula. -/
theorem polygon_method_area_eq_twice_module (pts : List Point) (h : pts ≠ []) :
    (Polygon.from_points pts).enclosed_area = 2 * enclosed_area pts := by
  rw [Polygon.enclosed_area_method_eq_abs, enclosed_area_eq_abs]
  show ((|detSum pts| : Int) : Rat) = 2 * (((|detSum pts| : Int) : Rat) / 2)
  ring

/-- Witness for the C3 amended theorem at the unit square. -/
theorem polygon_method_area_eq_twice_module_witness :
    unitSquare ≠ [] ∧
      (Polygon.from_points unitSquare).enclosed_area = 2 * enclosed_area unitSquare :=
  ⟨by decide, polygon_method_area_eq_twice_module unitSquare (by decide)⟩

/-- C9: for every non-empty list of points, the module-level enclosed_area
gives the same value on the list and on its reversal, and the value is
never negative. -/
theorem enclosed_area_reverse_invariant_nonneg (l : List Point) (h : l ≠ []) :
    enclosed_area l.reverse = enclosed_area l ∧ 0 ≤ enclosed_area l := by
  constructor
  · rw [enclosed_area_eq_abs, enclosed_area_eq_abs, detSum_reverse l h, abs_neg]
  · rw [enclosed_area_eq_abs]
    positivity

/-- Witness for the C9 theorem at the unit square. -/
theorem enclosed_area_reverse_invariant_nonneg_witness :
    unitSquare ≠ [] ∧
      (enclosed_area unitSquare.reverse = enclosed_area unitSquare ∧
        0 ≤ enclosed_area unitSquare) :=
  ⟨by decide, enclosed_area_reverse_invariant_nonneg unitSquare (by decide)⟩

end AocGeom

namespace ShortestPath

/-- Path dataclass from aoc_tools/shortest_path.py. Node identifiers
(Hashable in Python) are modelled as Nat. -/
structure SPath where
  from_node_id : Nat
  to_node_id : Nat
  cost : Int
  deriving DecidableEq, Repr

/-- INFINITY sentinel from aoc_tools/shortest_path.py (56 nines). -/
def INFINITY : Int := 99999999999999999999999999999999999999999999999999999999

/-- Concrete graph: each entry of nodes is a node identifier together with
the node's outgoing paths (Node.identifier and Node.paths), in insertion
order, plus the start_id/end_id attributes. -/
structure SGraph where
  nodes : List (Nat × List SPath)
  start_id : Option Nat
  end_id : Option Nat
  deriving DecidableEq, Repr

/-- Graph.find_node: first node whose identifier matches, giving its paths. -/
def find_node_paths : List (Nat × List SPath) → Nat → Option (List SPath)
  | [], _ => none
  | n :: rest, i => if n.1 = i then some n.2 else find_node_paths rest i

/-- Lookup in the min_costs defaultdict: INFINITY when the key is absent. -/
def lookupCost : List (Nat × Int) → Nat → Int
  | [], _ => INFINITY
  | c :: rest, i => if c.1 = i then c.2 else lookupCost rest i

/-- Membership test for the insertion-ordered dict model. -/
def keyPresent : List (Nat × Int) → Nat → Bool
  | [], _ => false
  | c :: rest, i => decide (c.1 = i) || keyPresent rest i

/-- Assignment min_costs[i] = v: update in place when present, else append
(defaultdict inserts at the end on first touch). -/
def setCost (costs : List (Nat × Int)) (i : Nat) (v : Int) : List (Nat × Int) :=
  if keyPresent costs i then costs.map (fun c => if c.1 = i then (c.1, v) else c)
  else costs ++ [(i, v)]

/-- find_next_node: scan all entries of min_costs, keeping the first entry
whose cost is strictly below the best so far (initially None, INFINITY).
Visited nodes are never excluded, faithfully to the source. -/
def find_next_node (costs : List (Nat × Int)) : Option Nat × Int :=
  costs.foldl (fun best c => if c.2 < best.2 then (some c.1, c.2) else best)
    (none, INFINITY)

/-- Body of the `for path in cur_node.paths` loop of Graph.dijkstra:
raises on a negative path cost, otherwise relaxes the target entry. -/
def processPaths : List SPath → Int → List (Nat × Int) → Except PyErr (List (Nat × Int))
  | [], _, costs => .ok costs
  | p :: rest, curCost, costs =>
    if p.cost < 0 then .error .runtimeError
    else processPaths rest curCost
      (setCost costs p.to_node_id (min (lookupCost costs p.to_node_id) (curCost + p.cost)))

/-- The while loop of Graph.dijkstra with explicit fuel; none models
non-termination within the given fuel. -/
def dijkstraLoop (g : SGraph) (e : Nat) : Nat → List (Nat × Int) → Option (Except PyErr Int)
  | 0, _ => none
  | fuel + 1, costs =>
    match find_next_node costs with
    | (none, _) => some (.ok INFINITY)
    | (some cid, curCost) =>
      if cid = e then some (.ok curCost)
      else if curCost < 0 then some (.error .runtimeError)
      else
        match find_node_paths g.nodes cid with
        | none => some (.error .assertionError)
        | some ps =>
          match processPaths ps curCost costs with
          | .error er => some (.error er)
          | .ok costs2 => dijkstraLoop g e fuel costs2

/-- Graph.dijkstra: asserts start_id and end_id are set, seeds min_costs
with start at cost 0 and runs the loop. -/
def dijkstra (g : SGraph) (fuel : Nat) : Option (Except PyErr Int) :=
  match g.start_id, g.end_id with
  | some s, some e => dijkstraLoop g e fuel (setCost [] s 0)
  | _, _ => some (.error .assertionError)

/-- Line graph A—B—C with node ids 0, 1, 2, undirected edges 0—1 of cost c1
and 1—2 of cost c2 (each node lists its incident paths), start 0, end 2. -/
def lineGraph (c1 c2 : Int) : SGraph where
  nodes := [(0, [⟨0, 1, c1⟩]), (1, [⟨1, 0, c1⟩, ⟨1, 2, c2⟩]), (2, [⟨2, 1, c2⟩])]
  start_id := some 0
  end_id := some 2

theorem find_next_node_pair (m : Int) (hm : ¬ m < 0) :
    find_next_node [(0, 0), (1, m)] = (some 0, 0) := by
  have hI0 : (0 : Int) < INFINITY := by norm_num [INFINITY]
  simp [find_next_node, hI0, hm]

/-- C1: on every 3-node line graph with nonnegative edge costs the dijkstra
method never terminates (returns none for every amount of fuel): after the
first relaxation the min_costs table is a fixed point and find_next_node
keeps selecting the start node, since visited nodes are never excluded. -/
theorem dijkstra_line_graph_diverges (c1 c2 : Int) (h1 : 0 ≤ c1) (h2 : 0 ≤ c2) :
    ∀ fuel, dijkstra (lineGraph c1 c2) fuel = none := by
  have hI0 : (0 : Int) < INFINITY := by norm_num [INFINITY]
  have hc1 : ¬ c1 < 0 := not_lt.mpr h1
  have hm0 : ¬ min INFINITY c1 < 0 := not_lt.mpr (le_min (le_of_lt hI0) h1)
  have hmc : min (min INFINITY c1) c1 = min INFINITY c1 := min_eq_left (min_le_right _ _)
  have hfix : ∀ n, dijkstraLoop (lineGraph c1 c2) 2 n [(0, 0), (1, min INFINITY c1)] = none := by
    intro n
    induction n with
    | zero => rfl
    | succ k ih =>
      rw [show (k + 1) = k.succ from rfl]
      simp only [dijkstraLoop, find_next_node_pair (min INFINITY c1) hm0]
      norm_num [find_node_paths, lineGraph, processPaths, lookupCost, setCost, keyPresent,
        hc1, hmc]
      exact ih
  intro fuel
  cases fuel with
  | zero => rfl
  | succ k =>
    have hstep : dijkstra (lineGraph c1 c2) (k + 1) =
        dijkstraLoop (lineGraph c1 c2) 2 k [(0, 0), (1, min INFINITY c1)] := by
      show dijkstraLoop (lineGraph c1 c2) 2 (k + 1) (setCost [] 0 0) = _
      have hseed : setCost [] 0 0 = [(0, 0)] := rfl
      rw [hseed]
      have hfind1 : find_next_node [(0, 0)] = (some 0, 0) := by
        simp [find_next_node, hI0]
      rw [show (k + 1) = k.succ from rfl]
      simp only [dijkstraLoop, hfind1]
      norm_num [find_node_paths, lineGraph, processPaths, lookupCost, setCost, keyPresent,
        hc1]
    rw [hstep]
    exact hfix k

/-- Witness for C1's divergence theorem: concrete line graph with both edge
costs 1 and fuel 5. -/
theorem dijkstra_line_graph_diverges_witness :
    (0 : Int) ≤ 1 ∧ dijkstra (lineGraph 1 1) 5 = none :=
  ⟨by norm_num, dijkstra_line_graph_diverges 1 1 (by norm_num) (by norm_num) 5⟩

/-- Lookup in the best_costs dict of floyd_warshall. -/
def assocFind : List ((Nat × Nat) × Int) → (Nat × Nat) → Option Int
  | [], _ => none
  | c :: rest, k => if c.1 = k then some c.2 else assocFind rest k

/-- Reading best_costs[key] on the defaultdict: returns the stored value,
or INFINITY after appending the new entry (defaultdict insert-on-read). -/
def fwRead (costs : List ((Nat × Nat) × Int)) (k : Nat × Nat) :
    Int × List ((Nat × Nat) × Int) :=
  match assocFind costs k with
  | some v => (v, costs)
  | none => (INFINITY, costs ++ [(k, INFINITY)])

/-- Assignment best_costs[key] = v. -/
def fwWrite (costs : List ((Nat × Nat) × Int)) (k : Nat × Nat) (v : Int) :
    List ((Nat × Nat) × Int) :=
  if (assocFind costs k).isSome then
    costs.map (fun c => if c.1 = k then (c.1, v) else c)
  else costs ++ [(k, v)]

/-- Body of the triple loop of floyd_warshall: reads ij, ik, kj (each read
may insert a default INFINITY entry) and writes the relaxed ij value. -/
def fwStep (costs : List ((Nat × Nat) × Int)) (i j k : Nat) :
    List ((Nat × Nat) × Int) :=
  let r1 := fwRead costs (i, j)
  let r2 := fwRead r1.2 (i, k)
  let r3 := fwRead r2.2 (k, j)
  fwWrite r3.2 (i, j) (min r1.1 (r2.1 + r3.1))

/-- Graph.paths for the concrete graph: concatenation of each node's paths
in node order (BasicGraph.paths chains them in exactly this order). -/
def allPaths (g : SGraph) : List SPath := (g.nodes.map Prod.snd).flatten

/-- Graph.floyd_warshall: seeds best_costs from the edge list (plain
assignment, so a later parallel edge OVERWRITES an earlier one), zeroes the
diagonal, runs the k/i/j triple loop, and raises when a diagonal entry went
negative. -/
def floyd_warshall (g : SGraph) : Except PyErr (List ((Nat × Nat) × Int)) :=
  let costs0 := (allPaths g).foldl
    (fun cs p => fwWrite cs (p.from_node_id, p.to_node_id) p.cost) []
  let ids := g.nodes.map Prod.fst
  let costs1 := ids.foldl (fun cs i => fwWrite cs (i, i) 0) costs0
  let costs2 := ids.foldl
    (fun cs k => ids.foldl
      (fun cs i => ids.foldl (fun cs j => fwStep cs i j k) cs) cs) costs1
  if ids.any (fun i => decide ((fwRead costs2 (i, i)).1 < 0)) then
    .error .runtimeError
  else .ok costs2

/-- Result lookup helper: the returned mapping's value at a key, none when
the call raised. -/
def fwLookup (r : Except PyErr (List ((Nat × Nat) × Int))) (k : Nat × Nat) :
    Option Int :=
  match r with
  | .ok m => assocFind m k
  | .error _ => none

/-- Two-node graph in which node 1 has two parallel paths to node 2, the
first of cost 5 and the second of cost 7. -/
def parallelEdgeGraph : SGraph where
  nodes := [(1, [⟨1, 2, 5⟩, ⟨1, 2, 7⟩]), (2, [])]
  start_id := none
  end_id := none

/-- C5: floyd_warshall on the parallel-edge graph returns 7 for the pair
(1, 2) although the graph contains a direct path of cost 5 from 1 to 2 —
the later parallel edge overwrites the cheaper one, so the returned value
is not the minimum cost over all paths. -/
theorem floyd_warshall_parallel_edge_overwrites :
    SPath.mk 1 2 5 ∈ allPaths parallelEdgeGraph ∧
      fwLookup (floyd_warshall parallelEdgeGraph) (1, 2) = some 7 :=
  ⟨by decide, by decide⟩

end ShortestPath

namespace Day02

/-- Literal prefix of the game id pattern: the characters of Game-space. -/
def gamePre : List Char := ['G', 'a', 'm', 'e', ' ']

/-- Strip a literal pattern prefix from the input, none when it is not a
prefix of the input. -/
def dropPrefixCh : List Char → List Char → Option (List Char)
  | [], s => some s
  | _ :: _, [] => none
  | p :: ps, c :: cs => if c = p then dropPrefixCh ps cs else none

/-- Try to match the regex Game (\d+): at the start of the input and return
the digit group on success. The digit run is maximal: the quantifier is
greedy, and backtracking into the run cannot help since the following
literal is not a digit. -/
def matchGameAt (s : List Char) : Option (List Char) :=
  match dropPrefixCh gamePre s with
  | none => none
  | some rest =>
    let ds := rest.takeWhile Char.isDigit
    if ds.isEmpty then none
    else if (rest.dropWhile Char.isDigit).head? = some ':' then some ds
    else none

/-- re.search of the pattern Game (\d+): by scanning start positions left
to right, as CPython does. -/
def searchGame : List Char → Option (List Char)
  | [] => none
  | c :: cs =>
    match matchGameAt (c :: cs) with
    | some ds => some ds
    | none => searchGame cs

/-- Decimal value of a digit run (int of the matched group). -/
def digitsVal (ds : List Char) : Nat :=
  ds.foldl (fun acc c => 10 * acc + (c.toNat - 48)) 0

/-- get_game_id from day02/part1.py: searches the line for the game id
pattern, raising RuntimeError when the pattern is not found. -/
def get_game_id (s : List Char) : Except PyErr Nat :=
  match searchGame s with
  | none => .error .runtimeError
  | some ds => .ok (digitsVal ds)

/-- Declarative reading of the pattern Game (\d+): matching somewhere in
the line: some decomposition with a non-empty all-digit group followed by
a colon. -/
def matchesGamePattern (s : List Char) : Prop :=
  ∃ a ds b, s = a ++ gamePre ++ ds ++ ':' :: b ∧ ds ≠ [] ∧ ∀ c ∈ ds, c.isDigit

theorem dropPrefixCh_eq_some :
    ∀ (p s r : List Char), dropPrefixCh p s = some r ↔ s = p ++ r
  | [], s, r => by simp [dropPrefixCh, eq_comm]
  | _ :: _, [], _ => by simp [dropPrefixCh]
  | p :: ps, c :: cs, r => by
    simp only [dropPrefixCh, List.cons_append, List.cons.injEq]
    by_cases hc : c = p
    · rw [if_pos hc]
      rw [dropPrefixCh_eq_some ps cs r]
      simp [hc]
    · rw [if_neg hc]
      simp [hc]

theorem takeWhile_digits_colon (ds b : List Char) (hds : ∀ c ∈ ds, c.isDigit = true) :
    (ds ++ ':' :: b).takeWhile Char.isDigit = ds ∧
      (ds ++ ':' :: b).dropWhile Char.isDigit = ':' :: b := by
  induction ds with
  | nil =>
    constructor
    · simp [List.takeWhile_cons]
    · simp [List.dropWhile_cons]
  | cons d ds2 ih =>
    have hd : d.isDigit = true := hds d (by simp)
    have ih2 := ih (fun c hc => hds c (by simp [hc]))
    constructor
    · simp only [List.cons_append, List.takeWhile_cons, hd, if_true]
      rw [ih2.1]
    · simp only [List.cons_append, List.dropWhile_cons, hd, if_true]
      rw [ih2.2]


theorem matchGameAt_of_dropPrefix_none {s : List Char}
    (h : dropPrefixCh gamePre s = none) : matchGameAt s = none := by
  unfold matchGameAt
  rw [h]

theorem matchGameAt_of_dropPrefix_some {s rest : List Char}
    (h : dropPrefixCh gamePre s = some rest) :
    matchGameAt s =
      (if (rest.takeWhile Char.isDigit).isEmpty then none
       else if (rest.dropWhile Char.isDigit).head? = some ':' then
         some (rest.takeWhile Char.isDigit)
       else none) := by
  unfold matchGameAt
  rw [h]

theorem matchGameAt_eq_some_iff (s ds : List Char) :
    matchGameAt s = some ds ↔
      ((∃ b, s = gamePre ++ (ds ++ ':' :: b)) ∧ ds ≠ [] ∧ ∀ c ∈ ds, c.isDigit = true) := by
  cases hdp : dropPrefixCh gamePre s with
  | none =>
    rw [matchGameAt_of_dropPrefix_none hdp]
    constructor
    · intro h
      exact absurd h (by simp)
    · rintro ⟨⟨b, hb⟩, hne, hdig⟩
      have h2 := (dropPrefixCh_eq_some gamePre s (ds ++ ':' :: b)).mpr hb
      rw [hdp] at h2
      exact absurd h2 (by simp)
  | some rest =>
    have hrest : s = gamePre ++ rest := (dropPrefixCh_eq_some _ _ _).mp hdp
    rw [matchGameAt_of_dropPrefix_some hdp, hrest]
    have hiff : ∀ b : List Char,
        gamePre ++ rest = gamePre ++ (ds ++ ':' :: b) ↔ rest = ds ++ ':' :: b := by
      intro b
      exact List.append_right_inj gamePre
    constructor
    · intro h
      by_cases he : (rest.takeWhile Char.isDigit).isEmpty
      · rw [if_pos he] at h
        exact absurd h (by simp)
      · rw [if_neg he] at h
        by_cases hh : (rest.dropWhile Char.isDigit).head? = some ':'
        · rw [if_pos hh] at h
          have hds : rest.takeWhile Char.isDigit = ds := by
            exact Option.some.inj h
          cases hdw : rest.dropWhile Char.isDigit with
          | nil => rw [hdw] at hh; exact absurd hh (by simp)
          | cons c0 b =>
            rw [hdw] at hh
            have hc0 : c0 = ':' := by
              have := Option.some.inj hh
              exact this
            subst hc0
            refine ⟨⟨b, ?_⟩, ?_, ?_⟩
            · rw [hiff b, ← hds, ← hdw, List.takeWhile_append_dropWhile]
            · intro hds0
              rw [hds0] at hds
              rw [List.isEmpty_iff] at he
              exact he hds
            · intro c hc
              rw [← hds] at hc
              exact List.mem_takeWhile_imp hc
        · rw [if_neg hh] at h
          exact absurd h (by simp)
    · rintro ⟨⟨b, hb⟩, hne, hdig⟩
      rw [hiff b] at hb
      obtain ⟨htw, hdw⟩ := takeWhile_digits_colon ds b hdig
      rw [hb, htw, hdw]
      rw [if_neg (by rw [List.isEmpty_eq_false.mpr hne]; simp)]
      rw [if_pos (by rfl)]

theorem searchGame_isSome_iff (s : List Char) :
    (searchGame s).isSome = true ↔ matchesGamePattern s := by
  induction s with
  | nil =>
    simp only [searchGame, Option.isSome_none, matchesGamePattern]
    constructor
    · intro h; exact absurd h (by simp)
    · rintro ⟨a, ds, b, hb, hne, hdig⟩
      have := congrArg List.length hb
      simp [List.length_append, gamePre] at this
      omega
  | cons c cs ih =>
    show (match matchGameAt (c :: cs) with
      | some ds => some ds
      | none => searchGame cs).isSome = true ↔ _
    cases hm : matchGameAt (c :: cs) with
    | some ds =>
      simp only [Option.isSome_some]
      have hd := (matchGameAt_eq_some_iff (c :: cs) ds).mp hm
      obtain ⟨⟨b, hb⟩, hne, hdig⟩ := hd
      constructor
      · intro _
        exact ⟨[], ds, b, by rw [hb]; simp, hne, fun x hx => hdig x hx⟩
      · intro _; trivial
    | none =>
      simp only []
      rw [ih]
      unfold matchesGamePattern
      constructor
      · rintro ⟨a, ds, b, hb, hne, hdig⟩
        exact ⟨c :: a, ds, b, by rw [hb]; simp, hne, hdig⟩
      · rintro ⟨a, ds, b, hb, hne, hdig⟩
        cases a with
        | nil =>
          have : matchGameAt (c :: cs) = some ds := by
            rw [matchGameAt_eq_some_iff]
            refine ⟨⟨b, ?_⟩, hne, hdig⟩
            · rw [hb]; simp
          rw [this] at hm
          exact absurd hm (by simp)
        | cons a0 a2 =>
          have hcs : cs = a2 ++ gamePre ++ ds ++ ':' :: b := by
            have := hb
            simp only [List.cons_append, List.cons.injEq] at this
            exact this.2
          exact ⟨a2, ds, b, hcs, hne, hdig⟩

/-- Boolean test that an Except value is an exception. -/
def isErr {α : Type} : Except PyErr α → Bool
  | .error _ => true
  | .ok _ => false

theorem get_game_id_isErr_iff (s : List Char) :
    isErr (get_game_id s) = true ↔ ¬ matchesGamePattern s := by
  rw [← searchGame_isSome_iff]
  unfold get_game_id
  cases h : searchGame s with
  | none => simp [isErr, h]
  | some ds => simp [isErr, h]

/-- re.search for a pattern digit-group followed by a literal suffix, such
as the red/green/blue count regexes of day02: at each start position the
greedy digit run is maximal; shrinking it cannot help because each suffix
starts with a space, so on failure the scan moves one position right. -/
def searchNumThen (post : List Char) : List Char → Option (List Char)
  | [] => none
  | c :: cs =>
    let ds := (c :: cs).takeWhile Char.isDigit
    if ds.isEmpty then searchNumThen post cs
    else if post.isPrefixOf ((c :: cs).dropWhile Char.isDigit) then some ds
    else searchNumThen post cs

/-- The count_from_re helper of day02/part1.py: 0 when the regex has no
match, otherwise the int value of the matched group. -/
def count_from_re (post : List Char) (s : List Char) : Nat :=
  match searchNumThen post s with
  | none => 0
  | some ds => digitsVal ds

/-- Literal suffix of the red-count pattern. -/
def redPost : List Char := [' ', 'r', 'e', 'd']

/-- Literal suffix of the green-count pattern. -/
def greenPost : List Char := [' ', 'g', 'r', 'e', 'e', 'n']

/-- Literal suffix of the blue-count pattern. -/
def bluePost : List Char := [' ', 'b', 'l', 'u', 'e']

/-- Round dataclass of day02/part1.py. -/
structure Round where
  red : Nat
  green : Nat
  blue : Nat
  deriving DecidableEq, Repr

/-- Round.from_str: extract the three counts from a round string. -/
def Round.from_str (s : List Char) : Round where
  red := count_from_re redPost s
  green := count_from_re greenPost s
  blue := count_from_re bluePost s

/-- Python str.split on a single separator character. -/
def splitOnCh (sep : Char) : List Char → List (List Char)
  | [] => [[]]
  | c :: cs =>
    match splitOnCh sep cs with
    | [] => [[]]
    | h :: t => if c = sep then [] :: h :: t else (c :: h) :: t

def MAX_RED : Nat := 12

def MAX_GREEN : Nat := 13

def MAX_BLUE : Nat := 14

/-- is_game_possible from day02/part1.py: every round of the game stays
within the cube limits. -/
def is_game_possible (game : List Char) : Bool :=
  (splitOnCh ';' game).all fun round_str =>
    let r := Round.from_str round_str
    !(decide (MAX_RED < r.red) || decide (MAX_GREEN < r.green) ||
      decide (MAX_BLUE < r.blue))

/-- sum_valid_ids_in_file from day02/part1.py over the file's lines: sums
get_game_id over the possible games; an exception raised by get_game_id
propagates (no recovery). -/
def sum_valid_ids : List (List Char) → Except PyErr Nat
  | [] => .ok 0
  | l :: ls =>
    if is_game_possible l then
      match get_game_id l with
      | .error e => .error e
      | .ok v =>
        match sum_valid_ids ls with
        | .error e => .error e
        | .ok rest => .ok (v + rest)
    else sum_valid_ids ls

/-- C7: get_game_id raises (RuntimeError) exactly on the lines that do not
match the pattern Game (\d+):, and when some possible game line in the file
fails to match, sum_valid_ids_in_file itself ends in that uncaught
exception. -/
theorem get_game_id_error_iff_and_propagates :
    (∀ s : List Char, isErr (get_game_id s) = true ↔ ¬ matchesGamePattern s) ∧
    (∀ lines : List (List Char),
      (∃ l ∈ lines, is_game_possible l = true ∧ isErr (get_game_id l) = true) →
      isErr (sum_valid_ids lines) = true) := by
  refine ⟨get_game_id_isErr_iff, ?_⟩
  intro lines
  induction lines with
  | nil => rintro ⟨l, hl, _, _⟩; exact absurd hl (by simp)
  | cons l0 ls ih =>
    rintro ⟨l, hl, hposs, herr⟩
    unfold sum_valid_ids
    rcases List.mem_cons.mp hl with heq | hmem
    · subst heq
      rw [if_pos hposs]
      cases hg : get_game_id l with
      | error e => simp [isErr]
      | ok v => rw [hg] at herr; exact absurd herr (by simp [isErr])
    · have htail : isErr (sum_valid_ids ls) = true := ih ⟨l, hmem, hposs, herr⟩
      by_cases hp0 : is_game_possible l0
      · rw [if_pos hp0]
        cases hg : get_game_id l0 with
        | error e => simp [isErr]
        | ok v =>
          cases hs : sum_valid_ids ls with
          | error e => simp [isErr]
          | ok rest => rw [hs] at htail; exact absurd htail (by simp [isErr])
      · rw [if_neg hp0]
        exact htail

/-- Line Game 1: 3 red (matches the pattern and is possible). -/
def goodLine : List Char :=
  ['G', 'a', 'm', 'e', ' ', '1', ':', ' ', '3', ' ', 'r', 'e', 'd']

/-- Line Hi 42 (no Game prefix anywhere, counts all zero). -/
def badLine : List Char := ['H', 'i', ' ', '4', '2']

/-- Witness for the C7 theorem: the bad line provably fails the pattern via
the first conjunct, and a file containing it ends in the uncaught
exception via the second conjunct. -/
theorem get_game_id_error_iff_and_propagates_witness :
    ¬ matchesGamePattern badLine ∧ isErr (sum_valid_ids [goodLine, badLine]) = true :=
  ⟨(get_game_id_error_iff_and_propagates.1 badLine).mp (by decide),
   get_game_id_error_iff_and_propagates.2 [goodLine, badLine]
     ⟨badLine, by decide, by decide, by decide⟩⟩

end Day02

namespace Hashable

/-- CPython's default object hash is derived injectively from the object's
identity (its id), not from any contents. Generator objects have no custom
hash, so hash(generator) is this identity-based value; the model keeps the
identity itself. -/
def pyObjectHash (objId : Nat) : Nat := objId

/-- HashList hash from aoc_tools/hashable.py: hash(e for e in self) hashes
the generator OBJECT just created (hash never iterates it), so the result
is the identity hash of the fresh generator; the list contents are ignored.
The fresh generator's id is passed explicitly since allocation is
nondeterministic. -/
def hashListHash (contents : List Int) (genObjId : Nat) : Nat :=
  pyObjectHash genObjId

/-- HashDict hash: hash((k, v) for k, v in self.items()) likewise hashes
the fresh generator object itself. -/
def hashDictHash (contents : List (Int × Int)) (genObjId : Nat) : Nat :=
  pyObjectHash genObjId

/-- C8: the hash is a function of the fresh generator's identity alone:
any two hash calls on containers with EQUAL contents (here both [1], and
both the one-entry dict (1, 2)) give DIFFERENT hash values whenever the two
generator objects differ, contradicting content-determined hashing. -/
theorem hash_depends_on_generator_identity (g1 g2 : Nat) (h : g1 ≠ g2) :
    hashListHash [(1 : Int)] g1 ≠ hashListHash [(1 : Int)] g2 ∧
      hashDictHash [((1 : Int), (2 : Int))] g1 ≠ hashDictHash [((1 : Int), (2 : Int))] g2 :=
  ⟨h, h⟩

/-- Witness for the C8 theorem at generator ids 0 and 1. -/
theorem hash_depends_on_generator_identity_witness :
    (0 : Nat) ≠ 1 ∧
      (hashListHash [(1 : Int)] 0 ≠ hashListHash [(1 : Int)] 1 ∧
        hashDictHash [((1 : Int), (2 : Int))] 0 ≠ hashDictHash [((1 : Int), (2 : Int))] 1) :=
  ⟨by decide, hash_depends_on_generator_identity 0 1 (by decide)⟩

/-- First-match lookup in a dict's key/value entries. -/
def dictLookup : List (Int × Int) → Int → Option Int
  | [], _ => none
  | p :: t, k => if p.1 = k then some p.2 else dictLookup t k

/-- Python dict assignment d[k] = v: update in place when the key exists,
else append (insertion order preserved). -/
def dictSetItem (d : List (Int × Int)) (k v : Int) : List (Int × Int) :=
  if (dictLookup d k).isSome then d.map (fun p => if p.1 = k then (p.1, v) else p)
  else d ++ [(k, v)]

/-- HashDict.set over an explicit object store (list of dict contents,
references are indices): reads self._items, allocates the copy made by
HashDict.__init__(self._items) as a NEW object, performs new[key] = value
on the copy, and returns the updated store with the new reference. -/
def hashDictSet (store : List (List (Int × Int))) (ref : Nat) (k v : Int) :
    List (List (Int × Int)) × Nat :=
  let selfItems := store.getD ref []
  let store1 := store ++ [selfItems]
  let newRef := store.length
  let store2 := store1.set newRef (dictSetItem selfItems k v)
  (store2, newRef)

theorem dictLookup_setItem_self (d : List (Int × Int)) (k v : Int) :
    dictLookup (dictSetItem d k v) k = some v := by
  unfold dictSetItem
  by_cases h : (dictLookup d k).isSome
  · rw [if_pos h]
    induction d with
    | nil => simp [dictLookup] at h
    | cons p t ih =>
      by_cases hp : p.1 = k
      · simp [dictLookup, hp]
      · have hh : (dictLookup t k).isSome := by
          unfold dictLookup at h
          rw [if_neg hp] at h
          exact h
        simp only [List.map_cons, dictLookup, if_neg hp]
        exact ih hh
  · rw [if_neg h]
    induction d with
    | nil => simp [dictLookup]
    | cons p t ih =>
      by_cases hp : p.1 = k
      · unfold dictLookup at h
        rw [if_pos hp] at h
        simp at h
      · have hh : ¬ (dictLookup t k).isSome := by
          unfold dictLookup at h
          rw [if_neg hp] at h
          exact h
        simp only [List.cons_append, dictLookup, if_neg hp]
        exact ih hh

theorem dictLookup_setItem_other (d : List (Int × Int)) (k v k2 : Int) (hk : k2 ≠ k) :
    dictLookup (dictSetItem d k v) k2 = dictLookup d k2 := by
  unfold dictSetItem
  by_cases h : (dictLookup d k).isSome
  · rw [if_pos h]
    induction d with
    | nil => simp [dictLookup]
    | cons p t ih =>
      by_cases hp : p.1 = k
      · subst hp
        simp only [List.map_cons, if_pos rfl, dictLookup]
        rw [if_neg (fun he => hk he.symm), if_neg (fun he => hk he.symm)]
        by_cases ht : (dictLookup t p.1).isSome
        · exact ih ht
        · -- the map with no matching key in t is the identity on lookups of k2
          clear ih h
          induction t with
          | nil => simp [dictLookup]
          | cons q t2 ih2 =>
            by_cases hq : q.1 = p.1
            · unfold dictLookup at ht
              rw [if_pos hq] at ht
              simp at ht
            · have ht2 : ¬ (dictLookup t2 p.1).isSome := by
                unfold dictLookup at ht
                rw [if_neg hq] at ht
                exact ht
              simp only [List.map_cons, if_neg hq, dictLookup]
              by_cases hq2 : q.1 = k2
              · rw [if_pos hq2, if_pos hq2]
              · rw [if_neg hq2, if_neg hq2]
                exact ih2 ht2
      · simp only [List.map_cons, if_neg hp, dictLookup]
        by_cases hp2 : p.1 = k2
        · rw [if_pos hp2, if_pos hp2]
        · rw [if_neg hp2, if_neg hp2]
          have hh : (dictLookup t k).isSome ∨ ¬ (dictLookup t k).isSome := em _
          rcases hh with hh | hh
          · exact ih hh
          · unfold dictLookup at h
            rw [if_neg hp] at h
            exact absurd h hh
  · rw [if_neg h]
    induction d with
    | nil => simp [dictLookup, Ne.symm hk]
    | cons p t ih =>
      have hh : ¬ (dictLookup t k).isSome := by
        unfold dictLookup at h
        by_cases hp : p.1 = k
        · rw [if_pos hp] at h; simp at h
        · rw [if_neg hp] at h; exact h
      simp only [List.cons_append, dictLookup]
      by_cases hp2 : p.1 = k2
      · rw [if_pos hp2, if_pos hp2]
      · rw [if_neg hp2, if_neg hp2]
        exact ih hh

theorem set_append_length {α : Type} (l : List α) (x y : α) :
    (l ++ [x]).set l.length y = l ++ [y] := by
  induction l with
  | nil => rfl
  | cons a t ih =>
    show a :: (t ++ [x]).set t.length y = a :: (t ++ [y])
    rw [ih]

theorem hashDictSet_unfold (store : List (List (Int × Int))) (ref : Nat) (k v : Int) :
    hashDictSet store ref k v =
      (store ++ [dictSetItem (store.getD ref []) k v], store.length) := by
  unfold hashDictSet
  show ((store ++ [store.getD ref []]).set store.length
      (dictSetItem (store.getD ref []) k v), store.length) = _
  rw [set_append_length]

/-- C10: HashDict.set returns a fresh dict (a new store reference) that
maps k to v and agrees with the receiver at every other key, and the
receiver's stored contents are unchanged by the call. -/
theorem hashDictSet_frame (store : List (List (Int × Int))) (ref : Nat) (k v : Int)
    (h : ref < store.length) :
    (hashDictSet store ref k v).2 ≠ ref ∧
    ((hashDictSet store ref k v).1.getD ref [] = store.getD ref [] ∧
      dictLookup ((hashDictSet store ref k v).1.getD (hashDictSet store ref k v).2 []) k
        = some v ∧
      ∀ k2, k2 ≠ k →
        dictLookup ((hashDictSet store ref k v).1.getD (hashDictSet store ref k v).2 []) k2
          = dictLookup (store.getD ref []) k2) := by
  rw [hashDictSet_unfold]
  have hnew : (store ++ [dictSetItem (store.getD ref []) k v]).getD store.length []
      = dictSetItem (store.getD ref []) k v := by
    simp [List.getD]
  refine ⟨(Nat.ne_of_lt h).symm, ?_, ?_, ?_⟩
  · exact List.getD_append store _ [] ref h
  · rw [hnew]
    exact dictLookup_setItem_self (store.getD ref []) k v
  · intro k2 hk2
    rw [hnew]
    exact dictLookup_setItem_other (store.getD ref []) k v k2 hk2

/-- Witness for the C10 frame theorem: one-dict store, setting key 1 to 5. -/
theorem hashDictSet_frame_witness :
    0 < ([[((1 : Int), (2 : Int))]] : List (List (Int × Int))).length ∧
    ((hashDictSet [[((1 : Int), (2 : Int))]] 0 1 5).2 ≠ 0 ∧
      ((hashDictSet [[((1 : Int), (2 : Int))]] 0 1 5).1.getD 0 []
          = ([[((1 : Int), (2 : Int))]] : List (List (Int × Int))).getD 0 [] ∧
        dictLookup ((hashDictSet [[((1 : Int), (2 : Int))]] 0 1 5).1.getD
          (hashDictSet [[((1 : Int), (2 : Int))]] 0 1 5).2 []) 1 = some 5 ∧
        ∀ k2, k2 ≠ 1 →
          dictLookup ((hashDictSet [[((1 : Int), (2 : Int))]] 0 1 5).1.getD
            (hashDictSet [[((1 : Int), (2 : Int))]] 0 1 5).2 []) k2
            = dictLookup (([[((1 : Int), (2 : Int))]] :
                List (List (Int × Int))).getD 0 []) k2)) :=
  ⟨by decide, hashDictSet_frame [[((1 : Int), (2 : Int))]] 0 1 5 (by decide)⟩

end Hashable

/-- Value printed to standard output by a day script: either the filename
string (file names are modelled as atoms) or an integer. -/
inductive OutVal where
  | fileNameVal (f : Nat)
  | intVal (n : Int)
  deriving DecidableEq, Repr

namespace Day01

/-- get_calibration_value from day01/part1.py: two-digit number formed by
the first and last digit characters of the line; IndexError when the line
has no digit. -/
def get_calibration_value (s : List Char) : Except PyErr Int :=
  let digits := s.filter Char.isDigit
  match digits.head?, digits.getLast? with
  | some a, some b => .ok (10 * ((a.toNat : Int) - 48) + ((b.toNat : Int) - 48))
  | _, _ => .error .indexError

/-- sum_all_calibration_values over the file's lines; an exception from a
line propagates. -/
def sum_all_calibration_values : List (List Char) → Except PyErr Int
  | [] => .ok 0
  | l :: ls =>
    match get_calibration_value l with
    | .error e => .error e
    | .ok v =>
      match sum_all_calibration_values ls with
      | .error e => .error e
      | .ok rest => .ok (v + rest)

/-- Sequence of values printed by day01/part1.py main: exactly the sum (one
integer), nothing when the computation raises. -/
def main_output (lines : List (List Char)) : List OutVal :=
  match sum_all_calibration_values lines with
  | .ok v => [OutVal.intVal v]
  | .error _ => []

end Day01

namespace Day15

/-- hash_char from day15/part1.py. -/
def hash_char (c : Char) (start_at : Nat) : Nat :=
  ((start_at + c.toNat) * 17) % 256

/-- hash_str from day15/part1.py. -/
def hash_str (s : List Char) : Nat :=
  s.foldl (fun h c => hash_char c h) 0

/-- Whitespace characters stripped by Python str.strip (the ones occurring
in line input). -/
def isPySpace (c : Char) : Bool :=
  c == ' ' || c == '\n' || c == '\t' || c == '\r'

/-- Python str.strip. -/
def pyStrip (s : List Char) : List Char :=
  ((s.dropWhile isPySpace).reverse.dropWhile isPySpace).reverse

/-- parse_file from day15/part1.py: the first line is stripped, split on
commas, and the HASHes of the pieces are summed; the function returns
inside the loop on the first line, and raises RuntimeError on an empty
file. -/
def parse_file (lines : List (List Char)) : Except PyErr Nat :=
  match lines with
  | [] => .error .runtimeError
  | line :: _ => .ok (((Day02.splitOnCh ',' (pyStrip line)).map hash_str).sum)

/-- Sequence of values printed by day15/part1.py main: the filename, then
the parse result (the filename alone when parsing raises). -/
def main_output (fname : Nat) (lines : List (List Char)) : List OutVal :=
  OutVal.fileNameVal fname ::
    (match parse_file lines with
     | .ok v => [OutVal.intVal (v : Int)]
     | .error _ => [])

end Day15

/-- C6 counterexample: day15 part1's main prints two values (the filename,
then the answer), not exactly one integer: on a file containing the single
line HASH its output has length 2. -/
theorem day15_main_output_not_single_integer :
    (Day15.main_output 0 [['H', 'A', 'S', 'H']]).length ≠ 1 := by decide

/-- C6 amended, restricted to the two embedded scripts: day01 part1's main
prints exactly the single integer answer, and day15 part1's main prints the
filename followed by the integer answer — in both, the puzzle answer is the
last value printed when the computation succeeds. -/
theorem day_scripts_print_answer_last (fname : Nat) (lines1 lines15 : List (List Char))
    (v1 : Int) (v15 : Nat)
    (h1 : Day01.sum_all_calibration_values lines1 = .ok v1)
    (h15 : Day15.parse_file lines15 = .ok v15) :
    Day01.main_output lines1 = [OutVal.intVal v1] ∧
      Day15.main_output fname lines15 =
        [OutVal.fileNameVal fname, OutVal.intVal (v15 : Int)] := by
  constructor
  · unfold Day01.main_output
    rw [h1]
  · unfold Day15.main_output
    rw [h15]

/-- Witness for the C6 amended theorem: day01 on the line 12 gives 12,
day15 on the line HASH gives 52. -/
theorem day_scripts_print_answer_last_witness :
    Day01.sum_all_calibration_values [['1', '2']] = .ok 12 ∧
      Day15.parse_file [['H', 'A', 'S', 'H']] = .ok 52 ∧
      (Day01.main_output [['1', '2']] = [OutVal.intVal 12] ∧
        Day15.main_output 7 [['H', 'A', 'S', 'H']] =
          [OutVal.fileNameVal 7, OutVal.intVal 52]) :=
  ⟨by rfl, by rfl,
    day_scripts_print_answer_last 7 [['1', '2']] [['H', 'A', 'S', 'H']] 12 52
      (by rfl) (by rfl)⟩
